import Mathlib

/-
Shallow embedding of src/Lue_viikko.py: a per-weekday electricity
consumption/production aggregator.  Python strings are modelled as lists of
characters (Str); Python floats as rationals; functions that can raise an
exception return an Option whose outer none marks the raised exception.
-/

set_option linter.unusedVariables false
set_option maxRecDepth 10000

abbrev Str := List Char

/-- Python str.strip(): drop leading and trailing whitespace. -/
def pyStrip (s : Str) : Str :=
  ((s.dropWhile Char.isWhitespace).reverse.dropWhile Char.isWhitespace).reverse

/-- Python s.split(sep) for a one-character separator: keeps empty pieces. -/
def splitCh (sep : Char) : Str → List Str
  | [] => [[]]
  | c :: cs =>
    match splitCh sep cs with
    | [] => [[]]
    | h :: t => if c = sep then [] :: h :: t else (c :: h) :: t

def wordsAux : Str → Str → List Str
  | [], acc => if acc.isEmpty then [] else [acc.reverse]
  | c :: cs, acc =>
    if c.isWhitespace then
      if acc.isEmpty then wordsAux cs [] else acc.reverse :: wordsAux cs []
    else wordsAux cs (c :: acc)

/-- Python s.split() with no argument: split on whitespace runs, dropping empties. -/
def splitWs (s : Str) : List Str := wordsAux s []

/-- Decimal value of a digit string (Python int on an all-digit string). -/
def toNatStr (s : Str) : Nat := s.foldl (fun a c => 10 * a + (c.toNat - 48)) 0

/-- Python str.lower restricted to the characters this program meets
(ASCII letters plus the Finnish letters of the header labels). -/
def lowerChar (c : Char) : Char :=
  if 'A' ≤ c ∧ c ≤ 'Z' then Char.ofNat (c.toNat + 32)
  else if c = 'Ä' then 'ä'
  else if c = 'Ö' then 'ö'
  else if c = 'Å' then 'å'
  else c

def pyLower (s : Str) : Str := s.map lowerChar

/-- Python ch.isalpha restricted to the alphabet this program meets. -/
def isalphaPy (c : Char) : Bool :=
  c.isAlpha || c = 'ä' || c = 'ö' || c = 'å' || c = 'Ä' || c = 'Ö' || c = 'Å'

def isDigits (s : Str) : Bool := !s.isEmpty && s.all Char.isDigit

/- ## Calendar dates (datetime.date) -/

structure Date where
  year : Nat
  month : Nat
  day : Nat
  deriving DecidableEq, Repr

def isLeap (y : Nat) : Bool := y % 4 == 0 && (y % 100 != 0 || y % 400 == 0)

def daysInMonth (y m : Nat) : Nat :=
  if m = 2 then (if isLeap y then 29 else 28)
  else if m = 4 ∨ m = 6 ∨ m = 9 ∨ m = 11 then 30
  else 31

def daysBeforeMonth (y m : Nat) : Nat :=
  [0, 31, 59, 90, 120, 151, 181, 212, 243, 273, 304, 334].getD (m - 1) 0
    + (if 2 < m && isLeap y then 1 else 0)

/-- Python date.toordinal: day count in the proleptic Gregorian calendar,
with 0001-01-01 mapping to 1. -/
def toOrdinal (d : Date) : Nat :=
  365 * (d.year - 1) + (d.year - 1) / 4 - (d.year - 1) / 100 + (d.year - 1) / 400
    + daysBeforeMonth d.year d.month + d.day

/-- Python date.weekday(): Monday = 0 … Sunday = 6. -/
def pyWeekday (d : Date) : Nat := (toOrdinal d + 6) % 7

/-- Python datetime.date construction: validates the calendar date, raising
(modelled as none) on an invalid one. -/
def mkDate (y m d : Nat) : Option Date :=
  if 1 ≤ y ∧ 1 ≤ m ∧ m ≤ 12 ∧ 1 ≤ d ∧ d ≤ daysInMonth y m then some ⟨y, m, d⟩
  else none

/- ## Date parsing (_parse_date) -/

/-- strptime %d / %m field: one or two digits with the value in [lo, hi]. -/
def parseField (s : Str) (lo hi : Nat) : Option Nat :=
  if isDigits s ∧ s.length ≤ 2 ∧ lo ≤ toNatStr s ∧ toNatStr s ≤ hi then some (toNatStr s)
  else none

/-- strptime %Y field: exactly four digits. -/
def parseYear4 (s : Str) : Option Nat :=
  if isDigits s ∧ s.length = 4 then some (toNatStr s) else none

/-- strptime %y field: exactly two digits, 00-68 meaning 2000-2068 and
69-99 meaning 1969-1999. -/
def parseYear2 (s : Str) : Option Nat :=
  if isDigits s ∧ s.length = 2 then
    some (if toNatStr s ≤ 68 then 2000 + toNatStr s else 1900 + toNatStr s)
  else none

/-- strptime with day-month-4-digit-year separated by sep. -/
def tryDMY (sep : Char) (s : Str) : Option Date :=
  match splitCh sep s with
  | [ds, ms, ys] =>
    match parseField ds 1 31, parseField ms 1 12, parseYear4 ys with
    | some d, some m, some y => mkDate y m d
    | _, _, _ => none
  | _ => none

/-- strptime %Y-%m-%d. -/
def tryYMD (s : Str) : Option Date :=
  match splitCh '-' s with
  | [ys, ms, ds] =>
    match parseYear4 ys, parseField ms 1 12, parseField ds 1 31 with
    | some y, some m, some d => mkDate y m d
    | _, _, _ => none
  | _ => none

/-- strptime %d.%m.%y (two-digit year). -/
def tryDMY2 (s : Str) : Option Date :=
  match splitCh '.' s with
  | [ds, ms, ys] =>
    match parseField ds 1 31, parseField ms 1 12, parseYear2 ys with
    | some d, some m, some y => mkDate y m d
    | _, _, _ => none
  | _ => none

/-- date.fromisoformat, strict YYYY-MM-DD form. -/
def tryIso (s : Str) : Option Date :=
  match s with
  | [y1, y2, y3, y4, h1, m1, m2, h2, d1, d2] =>
    if h1 = '-' ∧ h2 = '-' ∧ [y1, y2, y3, y4, m1, m2, d1, d2].all Char.isDigit then
      mkDate (toNatStr [y1, y2, y3, y4]) (toNatStr [m1, m2]) (toNatStr [d1, d2])
    else none
  | _ => none

def bomChar : Char := Char.ofNat 0xFEFF

/-- Embedding of _parse_date.  The outer Option models the uncaught
IndexError of value.split T then [0].split()[0]: when the stripped text
starts with a literal T, the first piece is empty, its whitespace split is
the empty list and indexing it raises; every caught parsing failure is the
inner none instead. -/
def parse_date (value : Str) : Option (Option Date) :=
  let v := (pyStrip value).dropWhile (fun c => c = bomChar)
  if v.isEmpty then some none
  else
    match splitWs ((splitCh 'T' v).headD []) with
    | [] => none
    | w :: _ =>
      some ((tryDMY '.' w).orElse (fun _ => (tryYMD w).orElse (fun _ =>
        (tryDMY '/' w).orElse (fun _ => (tryDMY2 w).orElse (fun _ => tryIso w)))))

/- ## Weekday resolution -/

def WEEKDAYS_FI : List Str :=
  ["maanantai".data, "tiistai".data, "keskiviikko".data, "torstai".data,
   "perjantai".data, "lauantai".data, "sunnuntai".data]

def EN_TO_FI : List (Str × Str) :=
  [("monday".data, "maanantai".data), ("tuesday".data, "tiistai".data),
   ("wednesday".data, "keskiviikko".data), ("thursday".data, "torstai".data),
   ("friday".data, "perjantai".data), ("saturday".data, "lauantai".data),
   ("sunday".data, "sunnuntai".data)]

def lookupPairs (key : Str) : List (Str × Str) → Option Str
  | [] => none
  | (k, v) :: rest => if k = key then some v else lookupPairs key rest

/-- Embedding of _weekday_finnish_from_date. -/
def weekday_finnish_from_date (d : Date) : Str := WEEKDAYS_FI.getD (pyWeekday d) []

/-- Embedding of _weekday_finnish_from_text; outer none is the exception
propagated from parse_date. -/
def weekday_finnish_from_text (value : Str) : Option Str :=
  let v := pyStrip value
  if v.isEmpty then some []
  else
    match parse_date v with
    | none => none
    | some (some d) => some (weekday_finnish_from_date d)
    | some none =>
      let low := pyLower v
      match lookupPairs low EN_TO_FI with
      | some fi => some fi
      | none =>
        if WEEKDAYS_FI.contains low then some low
        else if isDigits low then
          let n := toNatStr low
          if n ≤ 6 then some (WEEKDAYS_FI.getD n [])
          else if n ≤ 7 then some (WEEKDAYS_FI.getD (n - 1) [])
          else some v
        else some v

/- ## Value normalization (_to_kwh_guess) -/

/-- Cleanup pipeline of _to_kwh_guess: strip, remove every space, comma to
period. -/
def cleanNum (s : Str) : Str :=
  ((pyStrip s).filter (fun c => c ≠ ' ')).map (fun c => if c = ',' then '.' else c)

/-- Python float() on plain decimal notation: optional sign, integer part,
optional fractional part, at least one digit. -/
def parseUnsignedRat (w : Str) : Option ℚ :=
  let ip := w.takeWhile Char.isDigit
  let rest := w.drop ip.length
  match rest with
  | [] => if ip.isEmpty then none else some (toNatStr ip)
  | '.' :: fp =>
    if isDigits fp ∨ (¬ ip.isEmpty ∧ fp.isEmpty) then
      some ((toNatStr ip : ℚ) + (toNatStr fp : ℚ) / ((10 : ℚ) ^ fp.length))
    else none
  | _ => none

def parseFloatPy (w : Str) : Option ℚ :=
  match w with
  | '+' :: rest => parseUnsignedRat rest
  | '-' :: rest => (parseUnsignedRat rest).map (fun q => -q)
  | _ => parseUnsignedRat w

/-- Embedding of _to_kwh_guess: clean the text, parse it, divide by 1000
unconditionally; none on empty or unparseable text. -/
def to_kwh_guess (s : Str) : Option ℚ :=
  let v := cleanNum s
  if v.isEmpty then none
  else (parseFloatPy v).map (fun q => q / 1000)

/- ## Column mapping (_etsi_sarakeindeksit) -/

inductive ColField
  | date | ck | cv | ct | pk | pv | pt
  deriving DecidableEq, Repr

/-- Recognized header labels per field. -/
def labels : ColField → List Str
  | .date => ["päivä".data, "day".data]
  | .ck => ["kulutus vaihe 1".data, "kulutus v1".data]
  | .cv => ["kulutus vaihe 2".data, "kulutus v2".data]
  | .ct => ["kulutus vaihe 3".data, "kulutus v3".data]
  | .pk => ["tuotanto vaihe 1".data, "tuotanto v1".data]
  | .pv => ["tuotanto vaihe 2".data, "tuotanto v2".data]
  | .pt => ["tuotanto vaihe 3".data, "tuotanto v3".data]

/-- The if/elif chain of _etsi_sarakeindeksit deciding which field a
normalized header cell names, if any. -/
def findField (s : Str) : Option ColField :=
  if s = "päivä".data ∨ s = "day".data then some .date
  else if s = "kulutus vaihe 1".data ∨ s = "kulutus v1".data then some .ck
  else if s = "kulutus vaihe 2".data ∨ s = "kulutus v2".data then some .cv
  else if s = "kulutus vaihe 3".data ∨ s = "kulutus v3".data then some .ct
  else if s = "tuotanto vaihe 1".data ∨ s = "tuotanto v1".data then some .pk
  else if s = "tuotanto vaihe 2".data ∨ s = "tuotanto v2".data then some .pv
  else if s = "tuotanto vaihe 3".data ∨ s = "tuotanto v3".data then some .pt
  else none

/-- Cell normalization of _etsi_sarakeindeksit: cell.lower().strip(). -/
def normCell (cell : Str) : Str := pyStrip (pyLower cell)

structure FoundIdx where
  date : Option Nat := none
  ck : Option Nat := none
  cv : Option Nat := none
  ct : Option Nat := none
  pk : Option Nat := none
  pv : Option Nat := none
  pt : Option Nat := none
  deriving DecidableEq, Repr

def FoundIdx.set (st : FoundIdx) : ColField → Nat → FoundIdx
  | .date, i => { st with date := some i }
  | .ck, i => { st with ck := some i }
  | .cv, i => { st with cv := some i }
  | .ct, i => { st with ct := some i }
  | .pk, i => { st with pk := some i }
  | .pv, i => { st with pv := some i }
  | .pt, i => { st with pt := some i }

def FoundIdx.get (st : FoundIdx) : ColField → Option Nat
  | .date => st.date
  | .ck => st.ck
  | .cv => st.cv
  | .ct => st.ct
  | .pk => st.pk
  | .pv => st.pv
  | .pt => st.pt

def enumerate (start : Nat) : List Str → List (Nat × Str)
  | [] => []
  | c :: cs => (start, c) :: enumerate (start + 1) cs

def etsiFold (st : FoundIdx) : List (Nat × Str) → FoundIdx
  | [] => st
  | (i, cell) :: rest =>
    match findField (normCell cell) with
    | some f => etsiFold (st.set f i) rest
    | none => etsiFold st rest

/-- Embedding of _etsi_sarakeindeksit: scan the header cells in order,
recording the last index whose normalized text exactly matches a label. -/
def etsi_sarakeindeksit (header : List Str) : FoundIdx :=
  etsiFold {} (enumerate 0 header)

structure Indices where
  date : Nat
  ck : Nat
  cv : Nat
  ct : Nat
  pk : Nat
  pv : Nat
  pt : Nat
  deriving DecidableEq, Repr

def Indices.get (idx : Indices) : ColField → Nat
  | .date => idx.date
  | .ck => idx.ck
  | .cv => idx.cv
  | .ct => idx.ct
  | .pk => idx.pk
  | .pv => idx.pv
  | .pt => idx.pt

/-- Default positional mapping of tulosta_taulukko. -/
def defaultIdx : Indices := ⟨0, 1, 2, 3, 4, 5, 6⟩

/-- indices.update(found_indices): a found index overrides the default. -/
def mergeIdx (base : Indices) (f : FoundIdx) : Indices :=
  ⟨f.date.getD base.date, f.ck.getD base.ck, f.cv.getD base.cv, f.ct.getD base.ct,
   f.pk.getD base.pk, f.pv.getD base.pv, f.pt.getD base.pt⟩

/-- Header detection of tulosta_taulukko: some cell is truthy and has an
alphabetic character. -/
def headerDetect (row : List Str) : Bool :=
  row.any (fun cell => !cell.isEmpty && cell.any isalphaPy)

/- ## Aggregation (tulosta_taulukko main loop) -/

structure AggEntry where
  ck : ℚ
  cv : ℚ
  ct : ℚ
  pk : ℚ
  pv : ℚ
  pt : ℚ
  date : Option Date
  deriving DecidableEq, Repr

abbrev AggMap := List (Str × AggEntry)

def lookupAgg (key : Str) : AggMap → Option AggEntry
  | [] => none
  | (k, e) :: rest => if k = key then some e else lookupAgg key rest

def setAgg (key : Str) (e : AggEntry) : AggMap → AggMap
  | [] => [(key, e)]
  | (k, e0) :: rest => if k = key then (k, e) :: rest else (k, e0) :: setAgg key e rest

/-- One row's effect on daily_data: create the entry with zero sums and this
row's parsed date when the key is new, then add the six contributions; the
stored date is only ever written at creation. -/
def updateAgg (agg : AggMap) (key : Str) (d : Option Date)
    (ck cv ct pk pv pt : ℚ) : AggMap :=
  match lookupAgg key agg with
  | none => agg ++ [(key, ⟨ck, cv, ct, pk, pv, pt, d⟩)]
  | some e =>
    setAgg key ⟨e.ck + ck, e.cv + cv, e.ct + ct, e.pk + pk, e.pv + pv, e.pt + pt, e.date⟩ agg

/-- Blank-row test: not row or all(cell.strip() == "" for cell in row). -/
def isBlankRow (row : List Str) : Bool :=
  row.isEmpty || row.all (fun c => (pyStrip c).isEmpty)

/-- raw_date = row[indices date] if indices date < len(row) else "". -/
def rawDate (idx : Indices) (row : List Str) : Str :=
  if idx.date < row.length then row.getD idx.date [] else []

/-- d = _parse_date(raw_date); outer none is the uncaught exception. -/
def rowDate (idx : Indices) (row : List Str) : Option (Option Date) :=
  parse_date (rawDate idx row)

/-- weekday = _weekday_finnish_from_text(raw_date) if not d else
_weekday_finnish_from_date(d). -/
def rowWeekday (idx : Indices) (row : List Str) : Option Str :=
  match rowDate idx row with
  | none => none
  | some (some d) => some (weekday_finnish_from_date d)
  | some none => weekday_finnish_from_text (rawDate idx row)

/-- val(idx): None when the index is beyond the row, else the parsed kWh. -/
def phaseVal (row : List Str) (i : Nat) : Option ℚ :=
  if row.length ≤ i then none else to_kwh_guess (row.getD i [])

/-- val(idx) or 0: an absent value contributes zero. -/
def contrib (row : List Str) (i : Nat) : ℚ := (phaseVal row i).getD 0

/-- Processing of one data row of tulosta_taulukko; none when _parse_date
raises on the date cell. -/
def processRow (idx : Indices) (agg : AggMap) (row : List Str) : Option AggMap :=
  if isBlankRow row then some agg
  else
    match rowDate idx row, rowWeekday idx row with
    | some d, some w =>
      some (updateAgg agg w d (contrib row idx.ck) (contrib row idx.cv)
        (contrib row idx.ct) (contrib row idx.pk) (contrib row idx.pv)
        (contrib row idx.pt))
    | _, _ => none

def processRows (idx : Indices) (agg : AggMap) : List (List Str) → Option AggMap
  | [] => some agg
  | r :: rs =>
    match processRow idx agg r with
    | none => none
    | some agg2 => processRows idx agg2 rs

/-- Aggregation phase of tulosta_taulukko on in-memory rows: header
detection, column mapping, then the fold over the data rows. -/
def tulosta_taulukko_agg (data : List (List Str)) : Option AggMap :=
  match data with
  | [] => some []
  | first :: rest =>
    if headerDetect first then
      processRows (mergeIdx defaultIdx (etsi_sarakeindeksit first)) [] rest
    else
      processRows defaultIdx [] (first :: rest)

/- ## Report rendering -/

def natDigitsAux : Nat → Nat → Str
  | 0, _ => []
  | fuel + 1, n =>
    if n < 10 then [Char.ofNat (48 + n)]
    else natDigitsAux fuel (n / 10) ++ [Char.ofNat (48 + n % 10)]

def natDigits (n : Nat) : Str := natDigitsAux (n + 1) n

def padLeftZ (s : Str) (n : Nat) : Str := List.replicate (n - s.length) '0' ++ s

def padRightSp (s : Str) (n : Nat) : Str := s ++ List.replicate (n - s.length) ' '

def padLeftSp (s : Str) (n : Nat) : Str := List.replicate (n - s.length) ' ' ++ s

/-- Embedding of _format_date_fi: dd.mm.yyyy, empty for an absent date. -/
def format_date_fi : Option Date → Str
  | none => []
  | some d =>
    padLeftZ (natDigits d.day) 2 ++ ['.'] ++ padLeftZ (natDigits d.month) 2
      ++ ['.'] ++ padLeftZ (natDigits d.year) 4

/-- Embedding of _fmt_num_kwh on a rational: two decimals, width six,
comma as decimal separator. -/
def fmt_num_kwh (n : ℚ) : Str :=
  let r : ℤ := round (n * 100)
  let mag : Nat := r.natAbs
  let body := natDigits (mag / 100) ++ ['.'] ++ padLeftZ (natDigits (mag % 100)) 2
  let signed := if r < 0 then '-' :: body else body
  (padLeftSp signed 6).map (fun c => if c = '.' then ',' else c)

/-- One printed data line of the report. -/
def fmtLine (w : Str) (e : AggEntry) : Str :=
  padRightSp w 13 ++ [' '] ++ padRightSp (format_date_fi e.date) 12 ++ "   ".data
    ++ padRightSp (fmt_num_kwh e.ck) 7 ++ [' '] ++ padRightSp (fmt_num_kwh e.cv) 7
    ++ [' '] ++ padRightSp (fmt_num_kwh e.ct) 7 ++ "    ".data
    ++ padRightSp (fmt_num_kwh e.pk) 7 ++ [' '] ++ padRightSp (fmt_num_kwh e.pv) 7
    ++ [' '] ++ padRightSp (fmt_num_kwh e.pt) 7

/-- The render loop: for each canonical weekday in order, emit its entry
when present. -/
def renderEntries (agg : AggMap) : List (Str × AggEntry) :=
  WEEKDAYS_FI.filterMap (fun w => (lookupAgg w agg).map (fun e => (w, e)))

/-- The printed data lines of the report. -/
def renderLines (agg : AggMap) : List Str :=
  (renderEntries agg).map (fun p => fmtLine p.1 p.2)


/- ## Association-list lemmas for the aggregate map -/

theorem lookupAgg_append_of_none (key : Str) (l1 l2 : AggMap)
    (h : lookupAgg key l1 = none) :
    lookupAgg key (l1 ++ l2) = lookupAgg key l2 := by
  induction l1 with
  | nil => simp
  | cons p rest ih =>
    obtain ⟨k, e⟩ := p
    by_cases hk : k = key
    · simp [lookupAgg, hk] at h
    · simp only [List.cons_append, lookupAgg, if_neg hk] at h ⊢
      exact ih h

theorem lookupAgg_append_singleton_ne (k' key : Str) (e : AggEntry) (l : AggMap)
    (h : key ≠ k') :
    lookupAgg k' (l ++ [(key, e)]) = lookupAgg k' l := by
  induction l with
  | nil => simp [lookupAgg, if_neg h]
  | cons p rest ih =>
    obtain ⟨k, e0⟩ := p
    by_cases hk : k = k'
    · simp [lookupAgg, hk]
    · simp only [List.cons_append, lookupAgg, if_neg hk]
      exact ih

theorem lookupAgg_setAgg_self (key : Str) (e : AggEntry) (l : AggMap) :
    lookupAgg key (setAgg key e l) = some e := by
  induction l with
  | nil => simp [setAgg, lookupAgg]
  | cons p rest ih =>
    obtain ⟨k, e0⟩ := p
    by_cases hk : k = key
    · simp [setAgg, lookupAgg, hk]
    · simp only [setAgg, lookupAgg, if_neg hk]
      exact ih

theorem lookupAgg_setAgg_ne (k' key : Str) (e : AggEntry) (l : AggMap)
    (h : key ≠ k') :
    lookupAgg k' (setAgg key e l) = lookupAgg k' l := by
  induction l with
  | nil => simp [setAgg, lookupAgg, if_neg h]
  | cons p rest ih =>
    obtain ⟨k, e0⟩ := p
    by_cases hk : k = key
    · subst hk
      simp only [setAgg, if_pos rfl, lookupAgg, if_neg h]
    · simp only [setAgg, if_neg hk, lookupAgg]
      by_cases hk' : k = k'
      · simp [hk']
      · simp only [if_neg hk']
        exact ih

/-- The entry stored under the row's own key after updateAgg: the sums grow
by the contributions and the date is the old date when the key existed, the
row's date when it was created. -/
theorem lookupAgg_updateAgg_self (agg : AggMap) (key : Str) (d : Option Date)
    (c1 c2 c3 c4 c5 c6 : ℚ) :
    lookupAgg key (updateAgg agg key d c1 c2 c3 c4 c5 c6)
      = some (match lookupAgg key agg with
              | none => ⟨c1, c2, c3, c4, c5, c6, d⟩
              | some e => ⟨e.ck + c1, e.cv + c2, e.ct + c3, e.pk + c4,
                           e.pv + c5, e.pt + c6, e.date⟩) := by
  unfold updateAgg
  cases h : lookupAgg key agg with
  | none =>
    rw [lookupAgg_append_of_none key agg _ h]
    simp [lookupAgg]
  | some e => simp [lookupAgg_setAgg_self]

theorem lookupAgg_updateAgg_ne (agg : AggMap) (k' key : Str) (d : Option Date)
    (c1 c2 c3 c4 c5 c6 : ℚ) (h : key ≠ k') :
    lookupAgg k' (updateAgg agg key d c1 c2 c3 c4 c5 c6) = lookupAgg k' agg := by
  unfold updateAgg
  cases hl : lookupAgg key agg with
  | none => exact lookupAgg_append_singleton_ne k' key _ agg h
  | some e => exact lookupAgg_setAgg_ne k' key _ agg h

/- ## Render-loop lemmas -/

theorem renderEntries_fst (l : List Str) (agg : AggMap) :
    (l.filterMap (fun w => (lookupAgg w agg).map (fun e => (w, e)))).map Prod.fst
      = l.filter (fun w => (lookupAgg w agg).isSome) := by
  induction l with
  | nil => simp
  | cons w ws ih =>
    cases h : lookupAgg w agg <;> simp [List.filterMap_cons, h, ih]

theorem renderEntries_fst_subset (agg : AggMap) (w : Str)
    (h : w ∈ (renderEntries agg).map Prod.fst) : w ∈ WEEKDAYS_FI := by
  rw [renderEntries, renderEntries_fst] at h
  exact (List.mem_filter.mp h).1

theorem count_weekdays_self : ∀ w ∈ WEEKDAYS_FI, List.count w WEEKDAYS_FI = 1 := by
  decide

/-- C7: the report renderer iterates the canonical Finnish weekday names in
Monday-to-Sunday order and emits exactly one line per weekday that has an
aggregate; a weekday with no aggregate produces no line at all. -/
theorem c7_render_one_line_per_weekday (agg : AggMap) :
    (renderEntries agg).map Prod.fst
        = WEEKDAYS_FI.filter (fun w => (lookupAgg w agg).isSome)
    ∧ (∀ w, w ∈ WEEKDAYS_FI → (lookupAgg w agg).isSome →
        List.count w ((renderEntries agg).map Prod.fst) = 1)
    ∧ (∀ w, lookupAgg w agg = none → w ∉ (renderEntries agg).map Prod.fst) := by
  refine ⟨renderEntries_fst WEEKDAYS_FI agg, ?_, ?_⟩
  · intro w hw hs
    rw [renderEntries, renderEntries_fst, List.count_filter (by simpa using hs)]
    exact count_weekdays_self w hw
  · intro w hw hmem
    rw [renderEntries, renderEntries_fst] at hmem
    have := (List.mem_filter.mp hmem).2
    simp [hw] at this

/-- C7 witness: with only a Monday aggregate present, exactly the Monday
line is emitted once and Tuesday is absent. -/
theorem c7_witness :
    (renderEntries [("maanantai".data, ⟨1, 0, 0, 0, 0, 0, none⟩)]).map Prod.fst
        = WEEKDAYS_FI.filter
            (fun w => (lookupAgg w [("maanantai".data, ⟨1, 0, 0, 0, 0, 0, none⟩)]).isSome)
    ∧ List.count "maanantai".data
        ((renderEntries [("maanantai".data, ⟨1, 0, 0, 0, 0, 0, none⟩)]).map Prod.fst) = 1
    ∧ "tiistai".data ∉
        (renderEntries [("maanantai".data, ⟨1, 0, 0, 0, 0, 0, none⟩)]).map Prod.fst := by
  refine ⟨(c7_render_one_line_per_weekday _).1,
    (c7_render_one_line_per_weekday _).2.1 "maanantai".data (by decide)
      (by with_unfolding_all decide),
    (c7_render_one_line_per_weekday _).2.2 "tiistai".data (by with_unfolding_all decide)⟩

/-- C8: a data row all of whose cells strip to the empty string leaves the
aggregate map untouched: no entry is created and no sum changes. -/
theorem c8_blank_row_skipped (idx : Indices) (agg : AggMap) (row : List Str)
    (h : ∀ c ∈ row, pyStrip c = []) :
    processRow idx agg row = some agg := by
  have hb : isBlankRow row = true := by
    rcases row with _ | ⟨c, cs⟩
    · rfl
    · simp only [isBlankRow, Bool.or_eq_true, List.all_eq_true]
      right
      intro x hx
      simp [h x hx]
  unfold processRow
  rw [hb]
  rfl

/-- C8 witness: a row of one whitespace cell and one empty cell leaves a
nonempty aggregate map unchanged. -/
theorem c8_witness :
    processRow defaultIdx [("maanantai".data, ⟨1, 0, 0, 0, 0, 0, none⟩)]
      [" ".data, "".data] = some [("maanantai".data, ⟨1, 0, 0, 0, 0, 0, none⟩)] :=
  c8_blank_row_skipped defaultIdx _ _ (by decide)

/-- C1 counterexample: in a dataset whose Monday aggregate is created by a
data row with the unparseable date text maanantai, a later Monday row dated
06.10.2025 (which parses, and resolves to maanantai) does not fill in the
representative date: the aggregate's date stays absent, refuting the claim
that the representative date is the first parseable date encountered and is
absent only if no row of that weekday had a parseable date. -/
theorem c1_counterexample :
    parse_date "06.10.2025".data = some (some ⟨2025, 10, 6⟩)
    ∧ weekday_finnish_from_text "06.10.2025".data = some "maanantai".data
    ∧ ((tulosta_taulukko_agg
          [["Päivä".data], ["maanantai".data, "1000".data],
           ["06.10.2025".data, "2000".data]]).bind
        (lookupAgg "maanantai".data)).map AggEntry.date = some none := by
  with_unfolding_all exact ⟨rfl, rfl, rfl⟩

/-- C1 amended: the representative date of a weekday aggregate is the
parsed date of the first data row for that weekday (absent when that row's
date text did not parse); processing a further row of the same weekday
never changes it, whether or not its date parses. -/
theorem c1_representative_date (idx : Indices) (agg : AggMap) (row : List Str)
    (w : Str) (d : Option Date) (hnb : isBlankRow row = false)
    (hd : rowDate idx row = some d) (hw : rowWeekday idx row = some w) :
    ((processRow idx agg row).bind (lookupAgg w)).map AggEntry.date
      = some (match lookupAgg w agg with
              | none => d
              | some e => e.date) := by
  unfold processRow
  rw [hnb, hd, hw]
  simp only [Bool.false_eq_true, if_false, Option.some_bind]
  rw [lookupAgg_updateAgg_self]
  cases lookupAgg w agg <;> simp

/-- C1 amended, witness: a first Monday row with a parseable date stores
that date; a second Monday row with a different parseable date leaves the
stored one unchanged. -/
theorem c1_witness :
    ((processRow defaultIdx [] ["06.10.2025".data, "1000".data]).bind
        (lookupAgg "maanantai".data)).map AggEntry.date = some (some ⟨2025, 10, 6⟩)
    ∧ ((processRow defaultIdx [("maanantai".data, ⟨1, 0, 0, 0, 0, 0, some ⟨2025, 10, 6⟩⟩)]
          ["13.10.2025".data, "2000".data]).bind
        (lookupAgg "maanantai".data)).map AggEntry.date = some (some ⟨2025, 10, 6⟩) := by
  constructor
  · have := c1_representative_date defaultIdx [] ["06.10.2025".data, "1000".data]
      "maanantai".data (some ⟨2025, 10, 6⟩) (by rfl) (by rfl) (by rfl)
    simpa using this
  · have := c1_representative_date defaultIdx
      [("maanantai".data, ⟨1, 0, 0, 0, 0, 0, some ⟨2025, 10, 6⟩⟩)]
      ["13.10.2025".data, "2000".data] "maanantai".data (some ⟨2025, 10, 13⟩)
      (by rfl) (by rfl) (by rfl)
    simpa using this

/-- C2: the date normalizer is not total: on text whose stripped form
starts with the letter T the truncation step indexes an empty list and the
function raises instead of returning absent; the same uncaught error aborts
the processing of a data row with such a date cell. -/
theorem c2_parse_date_raises :
    parse_date "T12:00".data = none
    ∧ processRow defaultIdx [] ["T12:00".data, "1000".data] = none := by
  exact ⟨rfl, rfl⟩

/-- C10: a non-blank data row whose resolved weekday is not one of the
seven canonical Finnish weekday names is still accumulated under that key
(the entry exists afterwards and its phase-1 consumption sum has grown by
the row's contribution), yet no aggregate map ever produces a rendered line
for such a key, so those sums are absent from the report. -/
theorem c10_noncanonical_key_not_rendered (idx : Indices) (agg : AggMap)
    (row : List Str) (w : Str) (d : Option Date) (hnb : isBlankRow row = false)
    (hd : rowDate idx row = some d) (hw : rowWeekday idx row = some w)
    (hnc : w ∉ WEEKDAYS_FI) :
    ((processRow idx agg row).bind (lookupAgg w)).map AggEntry.ck
      = some ((match lookupAgg w agg with
               | none => (0 : ℚ)
               | some e => e.ck) + contrib row idx.ck)
    ∧ (∀ m : AggMap, w ∉ (renderEntries m).map Prod.fst) := by
  constructor
  · unfold processRow
    rw [hnb, hd, hw]
    simp only [Bool.false_eq_true, if_false, Option.some_bind]
    rw [lookupAgg_updateAgg_self]
    cases lookupAgg w agg <;> simp
  · intro m hmem
    exact hnc (renderEntries_fst_subset m w hmem)

/-- C10 witness: the row with unrecognized date text foo is accumulated
under the key foo, and foo is never among the rendered weekdays. -/
theorem c10_witness :
    ((processRow defaultIdx [] ["foo".data, "2000".data]).bind
        (lookupAgg "foo".data)).map AggEntry.ck
      = some ((match lookupAgg "foo".data ([] : AggMap) with
               | none => (0 : ℚ)
               | some e => e.ck) + contrib ["foo".data, "2000".data] defaultIdx.ck)
    ∧ "foo".data ∉ (renderEntries []).map Prod.fst :=
  ⟨(c10_noncanonical_key_not_rendered defaultIdx [] ["foo".data, "2000".data]
      "foo".data none rfl rfl rfl (by decide)).1,
   (c10_noncanonical_key_not_rendered defaultIdx [] ["foo".data, "2000".data]
      "foo".data none rfl rfl rfl (by decide)).2 []⟩

/-- C3: for text that strips to a nonempty string, fails to parse as a
date, matches no English weekday and no canonical Finnish weekday, and
whose lower-cased form is all digits with value n: n in 0..6 resolves to
the canonical weekday at 0-based index n, n = 7 resolves via the 1-based
reading to the weekday at index 6 (sunnuntai), and n above 7 falls through
to returning the original stripped text. -/
theorem c3_digit_weekday_resolution (value : Str)
    (hne : pyStrip value ≠ [])
    (hpd : parse_date (pyStrip value) = some none)
    (hen : lookupPairs (pyLower (pyStrip value)) EN_TO_FI = none)
    (hfi : WEEKDAYS_FI.contains (pyLower (pyStrip value)) = false)
    (hdig : isDigits (pyLower (pyStrip value)) = true) :
    (toNatStr (pyLower (pyStrip value)) ≤ 6 →
      weekday_finnish_from_text value
        = some (WEEKDAYS_FI.getD (toNatStr (pyLower (pyStrip value))) []))
    ∧ (toNatStr (pyLower (pyStrip value)) = 7 →
      weekday_finnish_from_text value = some ("sunnuntai".data))
    ∧ (7 < toNatStr (pyLower (pyStrip value)) →
      weekday_finnish_from_text value = some (pyStrip value)) := by
  have hv : (pyStrip value).isEmpty = false := by
    simpa [List.isEmpty_iff] using hne
  have key : weekday_finnish_from_text value
      = (if toNatStr (pyLower (pyStrip value)) ≤ 6 then
          some (WEEKDAYS_FI.getD (toNatStr (pyLower (pyStrip value))) [])
        else if toNatStr (pyLower (pyStrip value)) ≤ 7 then
          some (WEEKDAYS_FI.getD (toNatStr (pyLower (pyStrip value)) - 1) [])
        else some (pyStrip value)) := by
    simp only [weekday_finnish_from_text, hv, Bool.false_eq_true, if_false,
      hpd, hen, hfi, hdig, if_true]
  refine ⟨fun h => ?_, fun h => ?_, fun h => ?_⟩
  · rw [key, if_pos h]
  · rw [key, if_neg (by omega), if_pos (by omega), h]
    rfl
  · rw [key, if_neg (by omega), if_neg (by omega)]

/-- C3 witness: the digit text 1 (hypotheses all checked concretely)
resolves 0-based to tiistai, and 8 falls through to itself. -/
theorem c3_witness :
    weekday_finnish_from_text "1".data = some (WEEKDAYS_FI.getD 1 [])
    ∧ weekday_finnish_from_text "8".data = some (pyStrip "8".data) :=
  ⟨by
    have := (c3_digit_weekday_resolution "1".data (by decide) (by rfl)
      (by rfl) (by rfl) (by rfl)).1 (by decide)
    simpa using this,
   by
    have := (c3_digit_weekday_resolution "8".data (by decide) (by rfl)
      (by rfl) (by rfl) (by rfl)).2.2 (by decide)
    simpa using this⟩

/-- C4: the value normalizer cleans the text (strip, drop embedded spaces,
comma to period), yields absent on text empty after cleanup and on text the
float parse rejects, and divides every parsed number by 1000
unconditionally; concretely 12345,67 becomes 12.34567 while the empty
string and abc become absent. -/
theorem c4_value_normalizer :
    to_kwh_guess "12345,67".data = some (1234567 / 100000 : ℚ)
    ∧ to_kwh_guess "".data = none
    ∧ to_kwh_guess "abc".data = none
    ∧ (∀ s : Str, cleanNum s = [] → to_kwh_guess s = none)
    ∧ (∀ s : Str, parseFloatPy (cleanNum s) = none → to_kwh_guess s = none)
    ∧ (∀ (s : Str) (q : ℚ), parseFloatPy (cleanNum s) = some q →
        to_kwh_guess s = some (q / 1000)) := by
  refine ⟨by with_unfolding_all rfl, rfl, by rfl, ?_, ?_, ?_⟩
  · intro s h
    simp [to_kwh_guess, h]
  · intro s h
    unfold to_kwh_guess
    by_cases hv : (cleanNum s).isEmpty
    · simp [hv]
    · simp [hv, h]
  · intro s q h
    have hv : (cleanNum s).isEmpty = false := by
      rcases hc : cleanNum s with _ | _
      · rw [hc] at h
        rw [show parseFloatPy ([] : Str) = none from rfl] at h
        exact Option.noConfusion h
      · rfl
    unfold to_kwh_guess
    simp [hv, h]

/-- C4 witness: the last conjunct applied at the text 2,5 with embedded
space: parsed as 2.5 and divided by 1000. -/
theorem c4_witness :
    to_kwh_guess "2 ,5".data = some ((5 / 2 : ℚ) / 1000) :=
  (c4_value_normalizer).2.2.2.2.2 "2 ,5".data (5 / 2)
    (by with_unfolding_all rfl)

/- ## Column-mapper lemmas -/

theorem FoundIdx.get_set_ne {st : FoundIdx} {f f' : ColField} {i : Nat}
    (h : f ≠ f') : (st.set f' i).get f = st.get f := by
  cases f <;> cases f' <;> simp_all [FoundIdx.set, FoundIdx.get]

theorem findField_mem_labels (s : Str) (f : ColField)
    (h : findField s = some f) : s ∈ labels f := by
  unfold findField at h
  split_ifs at h <;>
    first
      | exact Option.noConfusion h
      | (injection h with hf
         subst hf
         simp only [labels, List.mem_cons, List.not_mem_nil, or_false]
         assumption)

theorem enumerate_snd_mem (l : List Str) :
    ∀ (n : Nat) (p : Nat × Str), p ∈ enumerate n l → p.2 ∈ l := by
  induction l with
  | nil => intro n p hp; simp [enumerate] at hp
  | cons c cs ih =>
    intro n p hp
    simp only [enumerate] at hp
    rcases List.mem_cons.mp hp with hp | hp
    · subst hp
      exact List.mem_cons_self _ _
    · exact List.mem_cons_of_mem _ (ih (n + 1) p hp)

theorem etsiFold_get_eq (l : List (Nat × Str)) (st : FoundIdx) (f : ColField)
    (h : ∀ p ∈ l, findField (normCell p.2) ≠ some f) :
    (etsiFold st l).get f = st.get f := by
  induction l generalizing st with
  | nil => rfl
  | cons p rest ih =>
    obtain ⟨i, cell⟩ := p
    unfold etsiFold
    cases hf : findField (normCell cell) with
    | none => exact ih st (fun q hq => h q (List.mem_cons_of_mem _ hq))
    | some f' =>
      have hne : f ≠ f' := by
        rintro rfl
        exact h (i, cell) (List.mem_cons_self _ _) hf
      rw [ih (st.set f' i) (fun q hq => h q (List.mem_cons_of_mem _ hq))]
      exact FoundIdx.get_set_ne hne

theorem foundEmpty_get (f : ColField) : ({} : FoundIdx).get f = none := by
  cases f <;> rfl

theorem mergeIdx_get (base : Indices) (fi : FoundIdx) (f : ColField) :
    (mergeIdx base fi).get f = (fi.get f).getD (base.get f) := by
  cases f <;> rfl

/-- C5: exact-label column mapping: the canonical Finnish header maps the
seven fields to columns 0 through 6; a header of entirely unrecognized
labels leaves the whole default mapping; and in general any field none of
whose labels equals the lower-cased trimmed text of some header cell keeps
its default index. -/
theorem c5_column_mapping :
    mergeIdx defaultIdx (etsi_sarakeindeksit
      ["Päivä".data, "Kulutus vaihe 1".data, "Kulutus vaihe 2".data,
       "Kulutus vaihe 3".data, "Tuotanto vaihe 1".data, "Tuotanto vaihe 2".data,
       "Tuotanto vaihe 3".data]) = ⟨0, 1, 2, 3, 4, 5, 6⟩
    ∧ mergeIdx defaultIdx (etsi_sarakeindeksit
        ["Col1".data, "Col2".data, "Col3".data, "Col4".data, "Col5".data,
         "Col6".data, "Col7".data]) = defaultIdx
    ∧ (∀ (header : List Str) (f : ColField),
        (∀ cell ∈ header, normCell cell ∉ labels f) →
        (mergeIdx defaultIdx (etsi_sarakeindeksit header)).get f
          = defaultIdx.get f) := by
  refine ⟨by decide, by decide, ?_⟩
  intro header f h
  have hfound : (etsi_sarakeindeksit header).get f = none := by
    rw [etsi_sarakeindeksit, etsiFold_get_eq _ _ f ?_, foundEmpty_get]
    intro p hp hf
    exact h p.2 (enumerate_snd_mem header 0 p hp) (findField_mem_labels _ _ hf)
  rw [mergeIdx_get, hfound]
  rfl

/-- C5 witness: a header cell reading Kulutus (extra word missing) is not
an exact label for the first consumption phase, so that field keeps its
default column 1. -/
theorem c5_witness :
    (mergeIdx defaultIdx (etsi_sarakeindeksit ["Kulutus".data])).get ColField.ck
      = defaultIdx.get ColField.ck :=
  (c5_column_mapping).2.2 ["Kulutus".data] ColField.ck (by decide)

/-- C6: the first row of a nonempty dataset is a header exactly when some
cell of it has an alphabetic character; without a header the default
positional mapping is used and the first row is processed as a data row;
with a header the first row is skipped and the mapping merges the header
lookup into the defaults. -/
theorem c6_header_detection (first : List Str) (rest : List (List Str)) :
    (headerDetect first = true ↔
      ∃ cell ∈ first, ∃ ch ∈ cell, isalphaPy ch = true)
    ∧ (headerDetect first = false →
        tulosta_taulukko_agg (first :: rest)
          = processRows defaultIdx [] (first :: rest))
    ∧ (headerDetect first = true →
        tulosta_taulukko_agg (first :: rest)
          = processRows (mergeIdx defaultIdx (etsi_sarakeindeksit first)) [] rest) := by
  refine ⟨?_, ?_, ?_⟩
  · constructor
    · intro h
      rcases List.any_eq_true.mp h with ⟨cell, hmem, hcell⟩
      simp only [Bool.and_eq_true] at hcell
      rcases List.any_eq_true.mp hcell.2 with ⟨ch, hch, hal⟩
      exact ⟨cell, hmem, ch, hch, hal⟩
    · rintro ⟨cell, hmem, ch, hch, hal⟩
      refine List.any_eq_true.mpr ⟨cell, hmem, ?_⟩
      have hne : cell.isEmpty = false := by
        rcases cell with _ | _
        · exact absurd hch (List.not_mem_nil ch)
        · rfl
      simp only [hne, Bool.not_false, Bool.true_and]
      exact List.any_eq_true.mpr ⟨ch, hch, hal⟩
  · intro h
    simp [tulosta_taulukko_agg, h]
  · intro h
    simp [tulosta_taulukko_agg, h]

/-- C6 witness: the all-numeric first row 1;2 is not a header, so it is
itself processed with the default mapping; the row Päivä is a header, so
only the rows after it are processed. -/
theorem c6_witness :
    (headerDetect ["Päivä".data] = true ↔
      ∃ cell ∈ [("Päivä".data : Str)], ∃ ch ∈ cell, isalphaPy ch = true)
    ∧ tulosta_taulukko_agg [["1".data, "2".data]]
        = processRows defaultIdx [] [["1".data, "2".data]]
    ∧ tulosta_taulukko_agg [["Päivä".data], ["1".data, "2".data]]
        = processRows (mergeIdx defaultIdx (etsi_sarakeindeksit ["Päivä".data])) []
            [["1".data, "2".data]] :=
  ⟨(c6_header_detection ["Päivä".data] []).1,
   (c6_header_detection ["1".data, "2".data] []).2.1 (by decide),
   (c6_header_detection ["Päivä".data] [["1".data, "2".data]]).2.2 (by decide)⟩

/-- C9: a data row shorter than the mapped column indices is processed
safely: the out-of-range date column yields the empty date text, every
out-of-range phase column yields an absent value contributing zero, and the
row processes to a defined result (skipped when blank, otherwise a zero
contribution under the key resolved from the empty date text) with no
out-of-bounds failure. -/
theorem c9_short_row_safe (idx : Indices) (agg : AggMap) (row : List Str)
    (hd : row.length ≤ idx.date) (h1 : row.length ≤ idx.ck)
    (h2 : row.length ≤ idx.cv) (h3 : row.length ≤ idx.ct)
    (h4 : row.length ≤ idx.pk) (h5 : row.length ≤ idx.pv)
    (h6 : row.length ≤ idx.pt) :
    rawDate idx row = []
    ∧ (∀ i, row.length ≤ i → phaseVal row i = none)
    ∧ processRow idx agg row
        = some (if isBlankRow row then agg
                else updateAgg agg [] none 0 0 0 0 0 0) := by
  have hraw : rawDate idx row = [] := by
    unfold rawDate
    rw [if_neg (by omega)]
  have hval : ∀ i, row.length ≤ i → phaseVal row i = none := by
    intro i hi
    unfold phaseVal
    rw [if_pos hi]
  refine ⟨hraw, hval, ?_⟩
  unfold processRow
  cases hb : isBlankRow row with
  | true => simp
  | false =>
    have hrd : rowDate idx row = some none := by
      unfold rowDate
      rw [hraw]
      rfl
    have hrw : rowWeekday idx row = some [] := by
      unfold rowWeekday
      rw [hrd, hraw]
      rfl
    have hc : ∀ j, row.length ≤ j → contrib row j = 0 := by
      intro j hj
      unfold contrib
      rw [hval j hj]
      rfl
    rw [hrd, hrw]
    simp only [Bool.false_eq_true, if_false,
      hc idx.ck h1, hc idx.cv h2, hc idx.ct h3, hc idx.pk h4, hc idx.pv h5,
      hc idx.pt h6]

/-- C9 witness: the one-cell row x against a mapping whose every column
index is 9 processes without failure into a zero contribution under the
empty key. -/
theorem c9_witness :
    rawDate ⟨9, 9, 9, 9, 9, 9, 9⟩ ["x".data] = []
    ∧ processRow ⟨9, 9, 9, 9, 9, 9, 9⟩ [] ["x".data]
        = some (if isBlankRow ["x".data] then []
                else updateAgg [] [] none 0 0 0 0 0 0) :=
  ⟨(c9_short_row_safe ⟨9, 9, 9, 9, 9, 9, 9⟩ [] ["x".data] (by decide) (by decide)
      (by decide) (by decide) (by decide) (by decide) (by decide)).1,
   (c9_short_row_safe ⟨9, 9, 9, 9, 9, 9, 9⟩ [] ["x".data] (by decide) (by decide)
      (by decide) (by decide) (by decide) (by decide) (by decide)).2.2⟩
